import Mathlib

/-!
Verification of the pyAFQ specification against the repository's code.

The file embeds, in order:
* `AFQ/dti.py`'s `fit_dti` input validation and output layout;
* the endpoint filter `clean_by_endpoints`;
* the bundle cleaner `clean_bundle`;
* the segmentation orchestrator and the index-returning / Reco strategies.

`AFQ/segmentation.py` itself is not part of the sources; the definitions for
it are modelled from the specification (see the doc comments starting with
`Modelled from the spec:`), with its test `AFQ/tests/test_segmentation.py`
supplying the concrete cases.
-/

namespace AFQ

/-! ### Embedding of `AFQ/dti.py` (`fit_dti`)

`fit_dti(data_files, bval_files, bvec_files, ...)` accepts for each of the
three file arguments either a single path (a Python `str`) or a list of
paths.  The embedding keeps that shape. -/

inductive FileInput where
  | single : String → FileInput
  | multi : List String → FileInput
deriving DecidableEq

/-- `type(f)` distinguishes a `str` from a `list` in the source's check. -/
def FileInput.isSingle : FileInput → Bool
  | .single _ => true
  | .multi _ => false

/-- `len(set(types)) > 1` is false exactly when the three inputs have the
same Python type (all `str` or all `list`). -/
def sameTypes (d b v : FileInput) : Bool :=
  (d.isSingle == b.isSingle) && (b.isSingle == v.isSingle)

/-- A `str` input is wrapped into a one-element list before the loading
loop (`data_files = [data_files]` etc. in the source). -/
def FileInput.toList : FileInput → List String
  | .single s => [s]
  | .multi l => l

/-- Python's `zip` over three lists: truncates to the shortest list. -/
def zip3 {α β γ : Type} : List α → List β → List γ → List (α × β × γ)
  | a :: as, b :: bs, c :: cs => (a, b, c) :: zip3 as bs cs
  | _, _, _ => []

/-- The validation-and-load phase of `fit_dti`: raise
`ValueError("Please provide consistent inputs ...")` when the three file
arguments have different types, otherwise produce the
`(dfile, bval_file, bvec_file)` triples that the loading loop
`for dfile, bval_file, bvec_file in zip(...)` iterates over.  No file is
touched on the error path. -/
def fit_dti_load (d b v : FileInput) :
    Except String (List (String × String × String)) :=
  if !sameTypes d b v then
    .error ("Please provide consistent inputs to fit_dti. All file" ++
      " inputs should be either lists of full paths, or a string" ++
      " with one full path.")
  else
    .ok (zip3 d.toList b.toList v.toList)

/-! Output layout of `fit_dti`: the maps `[FA, MD, AD, RD, params]` are
written to `out_dir/dti_<name>.nii.gz`, with `out_dir` defaulting to the
`dki` subdirectory next to the last DWI file, and `os.makedirs(out_dir)`
run when the directory does not exist.  The filesystem is embedded as the
list of existing directories. -/

def dtiMapNames : List String := ["FA", "MD", "AD", "RD", "params"]

/-- `out_dir` when given, else `op.join(op.split(dfile)[0], 'dki')`. -/
def effectiveOutDir : Option String → String → String
  | some d, _ => d
  | none, lastDir => lastDir ++ "/dki"

/-- `file_paths[n] = op.join(out_dir, 'dti_%s.nii.gz' % n)` for each map. -/
def dtiFilePaths (dir : String) : List (String × String) :=
  dtiMapNames.map (fun n => (n, dir ++ "/dti_" ++ n ++ ".nii.gz"))

/-- `if not op.exists(out_dir): os.makedirs(out_dir)`. -/
def ensureDir (fs : List String) (d : String) : List String :=
  if d ∈ fs then fs else fs ++ [d]

/-- The output phase of `fit_dti`: create the output directory when
missing and produce the returned `file_paths` dictionary (as an ordered
association list). -/
def fit_dti_save (fs : List String) (out_dir : Option String)
    (lastDir : String) : List String × List (String × String) :=
  let dir := effectiveOutDir out_dir lastDir
  (ensureDir fs dir, dtiFilePaths dir)

theorem zip3_length {α β γ : Type} :
    ∀ (xs : List α) (ys : List β) (zs : List γ),
      (zip3 xs ys zs).length = min xs.length (min ys.length zs.length) := by
  intro xs
  induction xs with
  | nil => intro ys zs; cases ys <;> cases zs <;> simp [zip3]
  | cons a as ih =>
    intro ys zs
    cases ys with
    | nil => simp [zip3]
    | cons b bs =>
      cases zs with
      | nil => simp [zip3]
      | cons c cs => simp [zip3, ih bs cs]; omega

theorem effectiveOutDir_mem_ensureDir (fs : List String) (d : String) :
    d ∈ ensureDir fs d := by
  unfold ensureDir
  split
  · assumption
  · simp

example : fit_dti_load (.multi ["a", "b"]) (.multi ["c"]) (.multi ["d"]) =
    .ok [("a", "c", "d")] := rfl

example : (fit_dti_save [] (some "out") "x").2.map Prod.fst =
    ["FA", "MD", "AD", "RD", "params"] := rfl

/-- Claim C5, counterexample: with three list inputs of mismatched lengths
(`["a", "b"]`, `["c"]`, `["d"]`) `fit_dti` raises no error at all — the
claim says such a call "fails immediately with a ValueError before any
file is loaded", but the load loop runs and loads the zip-truncated
triple `("a", "c", "d")`. -/
theorem fit_dti_length_mismatch_not_rejected :
    fit_dti_load (.multi ["a", "b"]) (.multi ["c"]) (.multi ["d"]) =
      .ok [("a", "c", "d")] ∧
    ∀ e, fit_dti_load (.multi ["a", "b"]) (.multi ["c"]) (.multi ["d"]) ≠
      .error e := by
  refine ⟨rfl, ?_⟩
  intro e h
  simp [fit_dti_load, sameTypes, FileInput.isSingle] at h

/-- Claim C5 as amended: `fit_dti` fails with the descriptive ValueError,
before any file is loaded, exactly when the three file inputs have
mismatched types (`str` vs `list`); three lists of mismatched lengths are
not detected — `zip` silently truncates the load loop to the shortest
list. -/
theorem fit_dti_validation :
    (∀ d b v : FileInput,
      (∃ e, fit_dti_load d b v = .error e) ↔ sameTypes d b v = false) ∧
    (∀ xs ys zs : List String,
      fit_dti_load (.multi xs) (.multi ys) (.multi zs) =
        .ok (zip3 xs ys zs)) ∧
    (∀ xs ys zs : List String,
      (zip3 xs ys zs).length = min xs.length (min ys.length zs.length)) := by
  refine ⟨?_, ?_, ?_⟩
  · intro d b v
    unfold fit_dti_load
    cases h : sameTypes d b v <;> simp [h]
  · intro xs ys zs
    rfl
  · intro xs ys zs
    exact zip3_length xs ys zs

/-- Claim C10: a successful `fit_dti` call returns a dictionary with
exactly the five keys `FA`, `MD`, `AD`, `RD`, `params` (the model-parameter
volume is saved alongside the four scalar maps), each mapped to
`out_dir/dti_<name>.nii.gz` for the effective output directory, and that
directory exists afterwards (it is created when missing). -/
theorem fit_dti_output_layout (fs : List String) (od : Option String)
    (ld : String) :
    ((fit_dti_save fs od ld).2.map Prod.fst =
      ["FA", "MD", "AD", "RD", "params"]) ∧
    ((fit_dti_save fs od ld).2 =
      [("FA", effectiveOutDir od ld ++ "/dti_FA.nii.gz"),
       ("MD", effectiveOutDir od ld ++ "/dti_MD.nii.gz"),
       ("AD", effectiveOutDir od ld ++ "/dti_AD.nii.gz"),
       ("RD", effectiveOutDir od ld ++ "/dti_RD.nii.gz"),
       ("params", effectiveOutDir od ld ++ "/dti_params.nii.gz")]) ∧
    effectiveOutDir od ld ∈ (fit_dti_save fs od ld).1 := by
  refine ⟨rfl, ?_, effectiveOutDir_mem_ensureDir fs _⟩
  show dtiFilePaths (effectiveOutDir od ld) = _
  generalize effectiveOutDir od ld = dir
  show [("FA", dir ++ "/dti_" ++ "FA" ++ ".nii.gz"),
        ("MD", dir ++ "/dti_" ++ "MD" ++ ".nii.gz"),
        ("AD", dir ++ "/dti_" ++ "AD" ++ ".nii.gz"),
        ("RD", dir ++ "/dti_" ++ "RD" ++ ".nii.gz"),
        ("params", dir ++ "/dti_" ++ "params" ++ ".nii.gz")] = _
  simp only [String.append_assoc]
  rfl

/-! ### Endpoint filter: `clean_by_endpoints`

Modelled from the spec: `AFQ.segmentation.clean_by_endpoints` is not among
the sources (only its test is).  Per §4.2, each target side may be `None`,
a list of label values resolved against the atlas by equality, or an
explicit list of voxel coordinates; a streamline is kept iff its rounded
first point lies within Chebyshev (per-axis) distance `tol` of some
start-target coordinate (or that side is `None`), and symmetrically for
its rounded last point; output order matches input order.  The atlas is
embedded as the labelled voxel grid (an ordered list of
voxel-coordinate/label pairs). -/

abbrev Voxel : Type := ℤ × ℤ × ℤ

abbrev Point : Type := ℚ × ℚ × ℚ

/-- Round a rational to the nearest integer (half-integers round up):
for `q = n / d` in lowest terms with `d > 0`, `⌊q + 1/2⌋` is the floor
division of `2n + d` by `2d`. -/
def roundQ (q : ℚ) : ℤ := (2 * q.num + q.den).fdiv (2 * q.den)

/-- Round a continuous point to the nearest voxel index. -/
def roundPoint (p : Point) : Voxel := (roundQ p.1, roundQ p.2.1, roundQ p.2.2)

/-- Chebyshev (per-axis, inclusive) tolerance test between two voxels. -/
def withinTol (tol : ℤ) (a b : Voxel) : Bool :=
  decide (|a.1 - b.1| ≤ tol) && decide (|a.2.1 - b.2.1| ≤ tol) &&
    decide (|a.2.2 - b.2.2| ≤ tol)

/-- Is the voxel within tolerance of any coordinate of the target set? -/
def nearAny (tol : ℤ) (p : Voxel) (targets : List Voxel) : Bool :=
  targets.any (fun t => withinTol tol p t)

/-- A target side of `clean_by_endpoints`: `None`, a set of atlas label
values, or an explicit Nx3 array of voxel coordinates. -/
inductive TargetSpec where
  | nothing
  | labels (ls : List ℕ)
  | coords (cs : List Voxel)

/-- Resolve a target side to `none` (no constraint) or the voxel
coordinate set it denotes; labels are resolved by the equality test
against the atlas volume. -/
def resolveTarget (atlas : List (Voxel × ℕ)) :
    TargetSpec → Option (List Voxel)
  | .nothing => none
  | .labels ls => some ((atlas.filter (fun e => ls.contains e.2)).map Prod.fst)
  | .coords cs => some cs

/-- One endpoint passes: unconditionally when that side is `None`,
otherwise when it is within tolerance of some target coordinate. -/
def endpointOK (tol : ℤ) (p : Voxel) : Option (List Voxel) → Bool
  | none => true
  | some ts => nearAny tol p ts

/-- The streamline's first point (`sl[0]`). -/
def slFirst (s : List Point) : Point := s.headI

/-- The streamline's last point (`sl[-1]`). -/
def slLast (s : List Point) : Point := s.getLastI

/-- Modelled from the spec:
`clean_by_endpoints(streamlines, start_targets, end_targets, tol, atlas)`
keeps exactly the streamlines whose two rounded endpoints pass their
respective resolved target sides, in input order. -/
def clean_by_endpoints (sls : List (List Point)) (startT endT : TargetSpec)
    (tol : ℤ) (atlas : List (Voxel × ℕ)) : List (List Point) :=
  let sTarg := resolveTarget atlas startT
  let eTarg := resolveTarget atlas endT
  sls.filter (fun s =>
    endpointOK tol (roundPoint (slFirst s)) sTarg &&
    endpointOK tol (roundPoint (slLast s)) eTarg)

/-! The concrete atlas and streamlines of `test_clean_by_endpoints`:
labels 1, 2, 3, 4 at voxels `(1,1,1)`, `(1,1,2)`, `(4,1,1)`, `(4,1,2)` of
an otherwise zero grid, and the four given streamlines. -/

def testAtlasVal (v : Voxel) : ℕ :=
  if v = (1, 1, 1) then 1 else if v = (1, 1, 2) then 2
  else if v = (4, 1, 1) then 3 else if v = (4, 1, 2) then 4 else 0

def testGrid : List Voxel :=
  (List.range 5).flatMap (fun x =>
    (List.range 5).flatMap (fun y =>
      (List.range 5).map (fun z => ((x : ℤ), (y : ℤ), (z : ℤ)))))

def testAtlas : List (Voxel × ℕ) := testGrid.map (fun v => (v, testAtlasVal v))

def testSL0 : List Point := [(1, 1, 1), (2, 1, 1), (3, 1, 1), (4, 1, 1)]

def testSL1 : List Point := [(1, 1, 2), (2, 1, 2), (3, 1, 2), (4, 1, 2)]

def testSL2 : List Point := [(1, 1, 1), (2, 1, 1), (3, 1, 1)]

def testSL3 : List Point := [(1, 1, 1), (2, 1, 1)]

def testSls : List (List Point) := [testSL0, testSL1, testSL2, testSL3]

theorem withinTol_mono {k k' : ℤ} (h : k' ≤ k) (a b : Voxel)
    (hw : withinTol k' a b = true) : withinTol k a b = true := by
  simp only [withinTol, Bool.and_eq_true, decide_eq_true_eq, abs_le] at hw ⊢
  omega

theorem endpointOK_mono {k k' : ℤ} (h : k' ≤ k) (p : Voxel)
    (t : Option (List Voxel)) (hw : endpointOK k' p t = true) :
    endpointOK k p t = true := by
  cases t with
  | none => rfl
  | some ts =>
    simp only [endpointOK, nearAny, List.any_eq_true] at hw ⊢
    obtain ⟨c, hc, hwc⟩ := hw
    exact ⟨c, hc, withinTol_mono h p c hwc⟩

/-- Claim C3: `clean_by_endpoints` keeps a streamline iff its rounded
first point passes the resolved start side and its rounded last point
passes the resolved end side (a `None` side is unconditional), output
order matches input order, and on the test atlas/streamlines: `tol=0`
with labels `{1,2}`/`{3,4}` keeps exactly the first 2 streamlines,
`tol=1` keeps exactly 3, and start label `{1}` with end `None` keeps
exactly 3 (matched by start only). -/
theorem clean_by_endpoints_spec :
    (∀ (sls : List (List Point)) (startT endT : TargetSpec) (tol : ℤ)
        (atlas : List (Voxel × ℕ)) (s : List Point),
      s ∈ clean_by_endpoints sls startT endT tol atlas ↔
        s ∈ sls ∧
        endpointOK tol (roundPoint (slFirst s))
          (resolveTarget atlas startT) = true ∧
        endpointOK tol (roundPoint (slLast s))
          (resolveTarget atlas endT) = true) ∧
    (∀ (sls : List (List Point)) (startT endT : TargetSpec) (tol : ℤ)
        (atlas : List (Voxel × ℕ)),
      List.Sublist (clean_by_endpoints sls startT endT tol atlas) sls) ∧
    clean_by_endpoints testSls (.labels [1, 2]) (.labels [3, 4]) 0
      testAtlas = [testSL0, testSL1] ∧
    clean_by_endpoints testSls (.labels [1, 2]) (.labels [3, 4]) 1
      testAtlas = [testSL0, testSL1, testSL2] ∧
    clean_by_endpoints testSls (.labels [1]) .nothing 0
      testAtlas = [testSL0, testSL2, testSL3] := by
  refine ⟨?_, ?_, by decide, by decide, by decide⟩
  · intro sls startT endT tol atlas s
    simp [clean_by_endpoints, List.mem_filter, Bool.and_eq_true, and_assoc]
  · intro sls startT endT tol atlas
    exact List.filter_sublist sls

/-- Claim C4: for tolerances `k' < k`, every streamline kept at `tol=k'`
is kept at `tol=k` (monotone superset), and `tol=0` is the exact voxel
match. -/
theorem clean_by_endpoints_tol_superset
    (sls : List (List Point)) (startT endT : TargetSpec)
    (atlas : List (Voxel × ℕ)) (k k' : ℤ) (hk : k' < k) :
    (∀ s, s ∈ clean_by_endpoints sls startT endT k' atlas →
      s ∈ clean_by_endpoints sls startT endT k atlas) ∧
    (∀ a b : Voxel, withinTol 0 a b = true ↔ a = b) := by
  constructor
  · intro s hs
    rw [clean_by_endpoints, List.mem_filter] at hs ⊢
    rcases hs with ⟨hmem, hpred⟩
    rw [Bool.and_eq_true] at hpred ⊢
    exact ⟨hmem, endpointOK_mono (le_of_lt hk) _ _ hpred.1,
      endpointOK_mono (le_of_lt hk) _ _ hpred.2⟩
  · intro a b
    constructor
    · intro h
      obtain ⟨a1, a2, a3⟩ := a
      obtain ⟨b1, b2, b3⟩ := b
      simp only [withinTol, Bool.and_eq_true, decide_eq_true_eq, abs_le] at h
      simp only [Prod.mk.injEq]
      omega
    · rintro rfl
      simp [withinTol]

/-- Witness for C4 at `k' = 0 < 1 = k` on the test data. -/
theorem clean_by_endpoints_tol_superset_witness :
    ((0 : ℤ) < 1) ∧
    (testSL0 ∈ clean_by_endpoints testSls (.labels [1, 2]) (.labels [3, 4])
        0 testAtlas →
      testSL0 ∈ clean_by_endpoints testSls (.labels [1, 2]) (.labels [3, 4])
        1 testAtlas) :=
  ⟨by decide,
    fun h => (clean_by_endpoints_tol_superset testSls (.labels [1, 2])
      (.labels [3, 4]) testAtlas 1 0 (by decide)).1 testSL0 h⟩

/-! ### Bundle cleaner: `clean_bundle`

Modelled from the spec: `AFQ.segmentation.clean_bundle` is not among the
sources.  Per §4.3, every streamline gets a distance-to-centroid (via an
external symmetric streamline-distance metric over the resampled
streamlines) and an arc length; those two external geometric primitives
are abstracted as the function parameters `dist` and `arclen`.  A
streamline is rejected when its distance-to-centroid exceeds
`distance_threshold` standard deviations from the chosen statistic
(`mean` or `median`) of the whole-bundle distance distribution, OR its
length deviates from the bundle's length statistic by more than
`length_threshold` standard deviations; bundles smaller than `min_sl` are
returned unchanged.  The deviation test `|x - stat| > t·σ` is embedded in
the squared form `t² · variance < (x - stat)²`, which agrees with it for
every nonnegative threshold `t` and avoids the irrational `σ`. -/

/-- The `stat` argument of `clean_bundle`: `'mean'` or `'median'`. -/
inductive Stat where
  | mean
  | median

def meanQ (xs : List ℚ) : ℚ := xs.sum / xs.length

def insertSorted (x : ℚ) : List ℚ → List ℚ
  | [] => [x]
  | y :: ys => if x ≤ y then x :: y :: ys else y :: insertSorted x ys

def sortQ (xs : List ℚ) : List ℚ := xs.foldr insertSorted []

/-- The median of a distribution: middle element of the sorted list, or
the average of the two middle elements for an even count. -/
def medianQ (xs : List ℚ) : ℚ :=
  let s := sortQ xs
  let n := s.length
  if n % 2 = 1 then s.getD (n / 2) 0
  else (s.getD (n / 2 - 1) 0 + s.getD (n / 2) 0) / 2

def statQ : Stat → List ℚ → ℚ
  | .mean => meanQ
  | .median => medianQ

/-- Population variance (square of the standard deviation). -/
def varQ (xs : List ℚ) : ℚ := meanQ (xs.map (fun x => (x - meanQ xs) ^ 2))

/-- Does `x` deviate from the chosen statistic of the distribution `xs`
by more than `thr` standard deviations?  (Squared form of
`|x - stat| > thr·σ`.) -/
def exceedsStd (thr : ℚ) (st : Stat) (xs : List ℚ) (x : ℚ) : Bool :=
  decide (thr ^ 2 * varQ xs < (x - statQ st xs) ^ 2)

/-- Modelled from the spec:
`clean_bundle(streamlines, distance_threshold, length_threshold, min_sl,
stat)` with the distance-to-centroid and arc-length primitives abstracted
as `dist` and `arclen`. -/
def clean_bundle {α : Type} (dist arclen : α → ℚ)
    (distance_threshold length_threshold : ℚ) ( min_sl : ℕ) (st : Stat)
    (sls : List α) : List α :=
  if sls.length < min_sl then sls
  else
    let dists := sls.map dist
    let lens := sls.map arclen
    sls.filter (fun s =>
      !(exceedsStd distance_threshold st dists (dist s) ||
        exceedsStd length_threshold st lens (arclen s)))

theorem meanQ_nonneg {xs : List ℚ} (h : ∀ x ∈ xs, 0 ≤ x) : 0 ≤ meanQ xs := by
  unfold meanQ
  apply div_nonneg (List.sum_nonneg h)
  exact_mod_cast Nat.zero_le _

theorem varQ_nonneg (xs : List ℚ) : 0 ≤ varQ xs := by
  apply meanQ_nonneg
  intro x hx
  obtain ⟨y, _, rfl⟩ := List.mem_map.1 hx
  positivity

theorem exceedsStd_anti {t t' : ℚ} (h0 : 0 ≤ t) (htt : t ≤ t') (st : Stat)
    (xs : List ℚ) (x : ℚ) (h : exceedsStd t' st xs x = true) :
    exceedsStd t st xs x = true := by
  simp only [exceedsStd, decide_eq_true_eq] at h ⊢
  refine lt_of_le_of_lt ?_ h
  exact mul_le_mul_of_nonneg_right (pow_le_pow_left₀ h0 htt 2) (varQ_nonneg xs)

theorem mem_clean_bundle_iff {α : Type} (dist arclen : α → ℚ) (dt lt : ℚ)
    (m : ℕ) (st : Stat) (sls : List α) (h : m ≤ sls.length) (s : α) :
    s ∈ clean_bundle dist arclen dt lt m st sls ↔
      s ∈ sls ∧ exceedsStd dt st (sls.map dist) (dist s) = false ∧
        exceedsStd lt st (sls.map arclen) (arclen s) = false := by
  unfold clean_bundle
  rw [if_neg (Nat.not_lt.mpr h)]
  simp [List.mem_filter]

theorem clean_bundle_subset_alone {α : Type} (dist arclen : α → ℚ)
    (dt lt : ℚ) (m : ℕ) (st : Stat) (sls : List α) (h : m ≤ sls.length) :
    (∀ s, s ∈ clean_bundle dist arclen dt lt m st sls →
      s ∈ sls.filter (fun x => !exceedsStd dt st (sls.map dist) (dist x))) ∧
    (∀ s, s ∈ clean_bundle dist arclen dt lt m st sls →
      s ∈ sls.filter
        (fun x => !exceedsStd lt st (sls.map arclen) (arclen x))) := by
  constructor <;> intro s hs <;>
    obtain ⟨h1, h2, h3⟩ := (mem_clean_bundle_iff dist arclen dt lt m st sls h s).1 hs <;>
    rw [List.mem_filter] <;> simp [h1, h2, h3]

/-- Claim C1: with the small-bundle guard passed, `clean_bundle` rejects
a streamline iff its distance-to-centroid exceeds `distance_threshold`
standard deviations from the chosen whole-bundle statistic OR its arc
length deviates from the length statistic by more than `length_threshold`
standard deviations; consequently the survivors of a run with both
thresholds form a subset of the survivors of either criterion alone. -/
theorem clean_bundle_reject_iff {α : Type} (dist arclen : α → ℚ)
    (dt lt : ℚ) (m : ℕ) (st : Stat) (sls : List α) (h : m ≤ sls.length) :
    (∀ s, s ∈ sls →
      (s ∉ clean_bundle dist arclen dt lt m st sls ↔
        exceedsStd dt st (sls.map dist) (dist s) = true ∨
        exceedsStd lt st (sls.map arclen) (arclen s) = true)) ∧
    (∀ s, s ∈ clean_bundle dist arclen dt lt m st sls →
      s ∈ sls.filter (fun x => !exceedsStd dt st (sls.map dist) (dist x))) ∧
    (∀ s, s ∈ clean_bundle dist arclen dt lt m st sls →
      s ∈ sls.filter
        (fun x => !exceedsStd lt st (sls.map arclen) (arclen x))) := by
  refine ⟨?_, (clean_bundle_subset_alone dist arclen dt lt m st sls h).1,
    (clean_bundle_subset_alone dist arclen dt lt m st sls h).2⟩
  intro s hmem
  rw [mem_clean_bundle_iff dist arclen dt lt m st sls h s]
  cases hA : exceedsStd dt st (sls.map dist) (dist s) <;>
    cases hB : exceedsStd lt st (sls.map arclen) (arclen s) <;>
    simp [hmem, hA, hB]

def wDist : ℕ → ℚ := fun n => ([0, 0, 0, 10] : List ℚ).getD n 0

def wLen : ℕ → ℚ := fun n => ([5, 5, 5, 5] : List ℚ).getD n 0

/-- Witness for C1 on a concrete four-streamline bundle. -/
theorem clean_bundle_reject_iff_witness :
    (2 ≤ ([0, 1, 2, 3] : List ℕ).length) ∧
    (∀ s, s ∈ ([0, 1, 2, 3] : List ℕ) →
      (s ∉ clean_bundle wDist wLen 1 4 2 Stat.mean [0, 1, 2, 3] ↔
        exceedsStd 1 Stat.mean (([0, 1, 2, 3] : List ℕ).map wDist)
          (wDist s) = true ∨
        exceedsStd 4 Stat.mean (([0, 1, 2, 3] : List ℕ).map wLen)
          (wLen s) = true)) :=
  ⟨by decide,
    (clean_bundle_reject_iff wDist wLen 1 4 2 Stat.mean [0, 1, 2, 3]
      (by decide)).1⟩

/-- Claim C8: a bundle with fewer than `min_sl` streamlines is returned
unchanged, whatever the thresholds and statistic. -/
theorem clean_bundle_small_guard {α : Type} (dist arclen : α → ℚ)
    (dt lt : ℚ) (m : ℕ) (st : Stat) (sls : List α)
    (h : sls.length < m) :
    clean_bundle dist arclen dt lt m st sls = sls := by
  unfold clean_bundle
  rw [if_pos h]

/-- Witness for C8: a three-streamline bundle against `min_sl = 20`. -/
theorem clean_bundle_small_guard_witness :
    (([0, 1, 2] : List ℕ).length < 20) ∧
    clean_bundle wDist wLen 2 1 20 Stat.median [0, 1, 2] = [0, 1, 2] :=
  ⟨by decide,
    clean_bundle_small_guard wDist wLen 2 1 20 Stat.median [0, 1, 2]
      (by decide)⟩

theorem clean_bundle_sublist_of_le {α : Type} (dist arclen : α → ℚ)
    {dt dt' lt lt' : ℚ} (m : ℕ) (st : Stat) (sls : List α)
    (hdt : 0 ≤ dt) (hdd : dt ≤ dt') (hlt : 0 ≤ lt) (hll : lt ≤ lt') :
    List.Sublist (clean_bundle dist arclen dt lt m st sls)
      (clean_bundle dist arclen dt' lt' m st sls) := by
  unfold clean_bundle
  split
  · exact List.Sublist.refl sls
  · apply List.monotone_filter_right
    intro a ha
    simp only [Bool.not_eq_true', Bool.or_eq_false_iff] at ha ⊢
    constructor
    · rw [Bool.eq_false_iff]
      intro hft
      exact absurd (exceedsStd_anti hdt hdd st _ _ hft) (by simp [ha.1])
    · rw [Bool.eq_false_iff]
      intro hft
      exact absurd (exceedsStd_anti hlt hll st _ _ hft) (by simp [ha.2])

/-- Claim C2 as amended: decreasing `distance_threshold` or
`length_threshold` (through nonnegative values) never increases the set
or the number of surviving streamlines, and a run with both thresholds
(OR-of-violations, §4.3) keeps a subset of the survivors of either
criterion alone. -/
theorem clean_bundle_threshold_monotone {α : Type} (dist arclen : α → ℚ)
    (dt dt' lt lt' : ℚ) (m : ℕ) (st : Stat) (sls : List α)
    (hdt : 0 ≤ dt) (hdd : dt ≤ dt') (hlt : 0 ≤ lt) (hll : lt ≤ lt') :
    ((clean_bundle dist arclen dt lt m st sls).length ≤
      (clean_bundle dist arclen dt' lt' m st sls).length) ∧
    (∀ s, s ∈ clean_bundle dist arclen dt lt m st sls →
      s ∈ clean_bundle dist arclen dt' lt' m st sls) ∧
    (m ≤ sls.length →
      (∀ s, s ∈ clean_bundle dist arclen dt lt m st sls →
        s ∈ sls.filter
          (fun x => !exceedsStd dt st (sls.map dist) (dist x))) ∧
      (∀ s, s ∈ clean_bundle dist arclen dt lt m st sls →
        s ∈ sls.filter
          (fun x => !exceedsStd lt st (sls.map arclen) (arclen x)))) := by
  refine ⟨(clean_bundle_sublist_of_le dist arclen m st sls
      hdt hdd hlt hll).length_le,
    fun s hs => (clean_bundle_sublist_of_le dist arclen m st sls
      hdt hdd hlt hll).subset hs,
    fun h => clean_bundle_subset_alone dist arclen dt lt m st sls h⟩

def cDist : ℕ → ℚ := fun _ => 0

def cLen : ℕ → ℚ := fun n => ([0, 0, 0, 0, 10] : List ℚ).getD n 0

/-- Claim C2, counterexample: on a concrete five-streamline bundle the
run with both thresholds (`distance_threshold = 2`,
`length_threshold = 1`) keeps strictly fewer streamlines than the
distance-threshold-alone run (`distance_threshold = 2`, default
`length_threshold = 4`), so "applying both thresholds together
(AND-of-violations) keeps a subset no smaller than either alone" fails:
the cleaner combines the two criteria with OR-of-violations, and adding
a threshold can only shrink the surviving set. -/
theorem clean_bundle_and_combination_false :
    (clean_bundle cDist cLen 2 1 0 Stat.mean [0, 1, 2, 3, 4]).length <
      (clean_bundle cDist cLen 2 4 0 Stat.mean [0, 1, 2, 3, 4]).length := by
  norm_num [clean_bundle, exceedsStd, statQ, varQ, meanQ, cDist, cLen,
    List.filter]

/-- Witness for C2 (amended) at concrete thresholds `1 ≤ 2`, `1 ≤ 4`. -/
theorem clean_bundle_threshold_monotone_witness :
    ((0 : ℚ) ≤ 1 ∧ (1 : ℚ) ≤ 2 ∧ (1 : ℚ) ≤ 4) ∧
    ((clean_bundle cDist cLen 1 1 0 Stat.mean [0, 1, 2, 3, 4]).length ≤
      (clean_bundle cDist cLen 2 4 0 Stat.mean [0, 1, 2, 3, 4]).length) :=
  ⟨⟨by norm_num, by norm_num, by norm_num⟩,
    (clean_bundle_threshold_monotone cDist cLen 1 2 1 4 0 Stat.mean
      [0, 1, 2, 3, 4] (by norm_num) (by norm_num) (by norm_num)
      (by norm_num)).1⟩

/-! ### Segmentation orchestrator and strategies

Modelled from the spec: `AFQ.segmentation.Segmentation` is not among the
sources.  Per §4.4/§4.6 a strategy evaluates, per bundle, an acceptance
test over all streamlines (abstracted here as a per-bundle predicate on
the streamline and its position in the input enumeration), collects the
accepted streamlines into the bundle's collection together with their
original indices (`return_idx` mode), and the orchestrator stores the
`fiber_groups` result of each `segment` call, overwriting the previous
one. -/

/-- A per-bundle entry of a SegmentationResult: the accepted streamlines
and their indices into the original input enumeration. -/
structure SegResult (α : Type) where
  sl : List α
  idx : List ℕ

def enumFrom {α : Type} (n : ℕ) : List α → List (ℕ × α)
  | [] => []
  | a :: as => (n, a) :: enumFrom (n + 1) as

/-- Modelled from the spec: assign streamlines to one bundle — keep the
streamlines accepted by the bundle's criteria, recording for each its
index in the original input collection. -/
def segmentBundle {α : Type} (keep : ℕ → α → Bool) (sls : List α) :
    SegResult α :=
  let hits := (enumFrom 0 sls).filter (fun p => keep p.1 p.2)
  ⟨hits.map Prod.snd, hits.map Prod.fst⟩

/-- Modelled from the spec: one `segment` invocation builds a fresh
result with one entry per requested bundle name. -/
def segmentAll {α : Type} (bundles : List (String × (ℕ → α → Bool)))
    (sls : List α) : List (String × SegResult α) :=
  bundles.map (fun b => (b.1, segmentBundle b.2 sls))

/-- The orchestrator: configuration plus the last-computed result. -/
structure Segmentation (α : Type) where
  return_idx : Bool
  fiber_groups : List (String × SegResult α)

/-- `segment` stores (and returns) the freshly computed result, replacing
whatever the orchestrator held before. -/
def Segmentation.segment {α : Type} (s : Segmentation α)
    (bundles : List (String × (ℕ → α → Bool))) (sls : List α) :
    Segmentation α :=
  { s with fiber_groups := segmentAll bundles sls }

theorem enumFrom_getD {α : Type} (d : α) :
    ∀ (l : List α) (n : ℕ) (p : ℕ × α), p ∈ enumFrom n l →
      n ≤ p.1 ∧ l.getD (p.1 - n) d = p.2 := by
  intro l
  induction l with
  | nil => intro n p hp; simp [enumFrom] at hp
  | cons a as ih =>
    intro n p hp
    rw [enumFrom, List.mem_cons] at hp
    rcases hp with rfl | hp
    · simp
    · obtain ⟨h1, h2⟩ := ih (n + 1) p hp
      refine ⟨by omega, ?_⟩
      obtain ⟨k, hk⟩ : ∃ k, p.1 - n = k + 1 := ⟨p.1 - (n + 1), by omega⟩
      rw [hk]
      have : p.1 - (n + 1) = k := by omega
      rw [this] at h2
      exact h2

theorem segmentBundle_idx_recovers {α : Type} (d : α)
    (keep : ℕ → α → Bool) (sls : List α) :
    ((segmentBundle keep sls).idx).map (fun i => sls.getD i d) =
      (segmentBundle keep sls).sl := by
  unfold segmentBundle
  rw [List.map_map]
  apply List.map_congr_left
  intro p hp
  have hmem : p ∈ enumFrom 0 sls := List.mem_of_mem_filter hp
  have h2 := (enumFrom_getD d sls 0 p hmem).2
  rw [Nat.sub_zero] at h2
  exact h2

/-- Claim C6: in `return_idx` mode, each bundle's result carries both the
streamline collection and the index sequence, and indexing the original
input collection with that index sequence reproduces exactly the returned
streamline collection. -/
theorem segment_return_idx_consistent {α : Type} (d : α)
    (bundles : List (String × (ℕ → α → Bool))) (sls : List α) :
    ∀ pr, pr ∈ segmentAll bundles sls →
      (pr.2.idx).map (fun i => sls.getD i d) = pr.2.sl := by
  intro pr hpr
  obtain ⟨b, _, rfl⟩ := List.mem_map.1 hpr
  exact segmentBundle_idx_recovers d b.2 sls

def wKeep : ℕ → ℕ → Bool := fun i _ => i % 2 == 0

def wSls : List ℕ := [10, 20, 30]

/-- Witness for C6 on a concrete three-streamline input. -/
theorem segment_return_idx_consistent_witness :
    (("A", segmentBundle wKeep wSls) ∈ segmentAll [("A", wKeep)] wSls) ∧
    ((segmentBundle wKeep wSls).idx).map (fun i => wSls.getD i 0) =
      (segmentBundle wKeep wSls).sl :=
  ⟨List.mem_singleton.mpr rfl,
    segment_return_idx_consistent 0 [("A", wKeep)] wSls
      ("A", segmentBundle wKeep wSls) (List.mem_singleton.mpr rfl)⟩

/-- Claim C7: after two successive `segment` calls the stored result is
computed freshly from the second call's bundle specs and streamlines
alone — identical to what a fresh orchestrator would store — with exactly
one entry per bundle name of the second call and no entry under any other
name (in particular none surviving from the first call). -/
theorem segment_overwrites_result {α : Type} (s0 : Segmentation α)
    (b1 b2 : List (String × (ℕ → α → Bool))) (s1 s2 : List α) :
    (((s0.segment b1 s1).segment b2 s2).fiber_groups =
      segmentAll b2 s2) ∧
    (((s0.segment b1 s1).segment b2 s2).fiber_groups =
      (Segmentation.segment ⟨s0.return_idx, []⟩ b2 s2).fiber_groups) ∧
    (((s0.segment b1 s1).segment b2 s2).fiber_groups.map Prod.fst =
      b2.map Prod.fst) ∧
    (∀ n, n ∉ b2.map Prod.fst →
      ∀ r, (n, r) ∉ ((s0.segment b1 s1).segment b2 s2).fiber_groups) := by
  refine ⟨rfl, rfl, ?_, ?_⟩
  · simp [Segmentation.segment, segmentAll, List.map_map]
  · intro n hn r hmem
    simp only [Segmentation.segment, segmentAll] at hmem
    obtain ⟨b, hb, heq⟩ := List.mem_map.1 hmem
    apply hn
    rw [List.mem_map]
    exact ⟨b, hb, congrArg Prod.fst heq⟩

def wKeepB : ℕ → ℕ → Bool := fun _ x => x ≤ 15

/-- Witness for C7: two successive calls on a concrete orchestrator. -/
theorem segment_overwrites_result_witness :
    ((((⟨false, []⟩ : Segmentation ℕ).segment [("A", wKeep)] wSls).segment
        [("B", wKeepB)] wSls).fiber_groups =
      segmentAll [("B", wKeepB)] wSls) :=
  (segment_overwrites_result ⟨false, []⟩ [("A", wKeep)] [("B", wKeepB)]
    wSls wSls).1

/-! ### Cluster-recognition ("Reco") segmentation strategy

Modelled from the spec: the Reco strategy is not among the sources, and
§9 explicitly leaves its internal similarity search to the implementer.
Per §4.5, the atlas supplies per-bundle reference cluster models (and
must include a `whole_brain` model), matching uses the parameters
`greater_than` (minimum reference-cluster size kept as a matching seed),
`rm_small_clusters` (matched groups smaller than this are dropped) and
`progressive` (a coarse pre-pass before refinement), and any stochastic
sub-sampling draws from a seeded random-number source, threaded
explicitly through the run. -/

/-- A deterministic linear-congruential pseudo-random step (the seeded
random-number source of §4.5, made explicit). -/
def lcgStep (s : ℕ) : ℕ := (1103515245 * s + 12345) % 2147483648

/-- Stochastic sub-sampling of a list, driven by (and threading) the
random-number state. -/
def subsampleRng {α : Type} : List α → ℕ → List α × ℕ
  | [], r => ([], r)
  | a :: as, r =>
    let r1 := lcgStep r
    let (rest, rLast) := subsampleRng as r1
    (if r1 % 2 = 0 then a :: rest else rest, rLast)

/-- Match the subject streamlines against one bundle's reference cluster
model: keep reference clusters of size at least `greater_than` as seeds,
sub-sample them with the random source, run the (optionally progressive)
similarity search, and drop the matched group when it is smaller than
`rm_small_clusters`. -/
def recoBundle {α : Type} (dist : α → α → ℚ) (radius : ℚ)
    (greater_than rm_small_clusters : ℕ) (progressive : Bool)
    (model : List (List α)) (subject : List α) (rng : ℕ) :
    List α × ℕ :=
  let seeds := (model.filter (fun c => greater_than ≤ c.length)).flatten
  let (samples, r1) := subsampleRng seeds rng
  let pool := if progressive then
      subject.filter (fun s => samples.any (fun m => decide (dist s m ≤ radius * 2)))
    else subject
  let matched := pool.filter
    (fun s => samples.any (fun m => decide (dist s m ≤ radius)))
  (if matched.length < rm_small_clusters then [] else matched, r1)

/-- Modelled from the spec: the Reco strategy over a whole atlas — fails
when the `whole_brain` reference model is missing, otherwise matches each
named bundle in turn, threading the seeded random-number state. -/
def recoSegment {α : Type} (dist : α → α → ℚ) (radius : ℚ)
    (greater_than rm_small_clusters : ℕ) (progressive : Bool)
    (atlas : List (String × List (List α))) (subject : List α)
    (seed : ℕ) : Except String (List (String × List α)) :=
  if atlas.any (fun b => b.1 == "whole_brain") then
    .ok (((atlas.filter (fun b => !(b.1 == "whole_brain"))).foldl
      (fun acc b =>
        let (res, r1) := recoBundle dist radius greater_than
          rm_small_clusters progressive b.2 subject acc.2
        (acc.1 ++ [(b.1, res)], r1))
      (([], seed) : List (String × List α) × ℕ)).1)
  else
    .error "Missing atlas model: whole_brain"

/-- Claim C9: two Reco runs on the same atlas and streamlines with the
same `greater_than`, `rm_small_clusters` and `progressive` parameters and
identically seeded random-number sources produce identical per-bundle
streamline sets (in the exact-arithmetic model the floating-point caveat
is vacuous). -/
theorem reco_deterministic_given_seed {α : Type} (dist : α → α → ℚ)
    (radius : ℚ) (greater_than rm_small_clusters : ℕ) (progressive : Bool)
    (atlas : List (String × List (List α))) (subject : List α)
    (seed1 seed2 : ℕ) (h : seed1 = seed2) :
    recoSegment dist radius greater_than rm_small_clusters progressive
        atlas subject seed1 =
      recoSegment dist radius greater_than rm_small_clusters progressive
        atlas subject seed2 := by
  rw [h]

def wRecoDist : ℕ → ℕ → ℚ := fun a b => ((a : ℚ) - b) ^ 2

def wAtlas : List (String × List (List ℕ)) :=
  [("whole_brain", [[0, 1, 2]]), ("CST_R", [[0, 1], [5]])]

/-- Witness for C9: two runs with seed 8 on a concrete atlas agree. -/
theorem reco_deterministic_given_seed_witness :
    recoSegment wRecoDist 1 2 1 false wAtlas [0, 5] 8 =
      recoSegment wRecoDist 1 2 1 false wAtlas [0, 5] 8 :=
  reco_deterministic_given_seed wRecoDist 1 2 1 false wAtlas [0, 5] 8 8 rfl

end AFQ
